import Mathlib

set_option maxRecDepth 4000

/-!
Shallow embedding of the storage-management core of the Rusty-File-System
repository (src/src/fs/{metadata,bitmap,inode,directory,state}.rs).

Conventions of the embedding:
* Rust `u32`/`u64`/`usize` values are modelled as `Nat`; where the source can
  underflow or overflow a machine integer, the embedding makes the outcome
  explicit (a `none` result models a Rust panic under overflow checks, e.g.
  an arithmetic underflow or an out-of-bounds index).
* Fallible operations return `Option (Except E α × State)`: `none` models a
  panic, `some (.error e, st)` models `Err(e)` with the state the source
  leaves behind (the source mutates in place, so an error can leave a
  partially updated state), `some (.ok a, st)` models `Ok(a)`.
* `bitvec`'s `BitArray<[u8; N], Lsb0>` is modelled as an `Array Bool` of
  exactly `8 * N` entries; indexing past the end of the bit slice panics in
  the source and is `none` here.
* `secs_from_unix_epoch()` reads the wall clock; operations take the current
  time as an explicit `now` argument.
-/

namespace RustyFS

/-! ## Constants (src/src/fs/metadata.rs, inode.rs, directory.rs) -/

def FS_SIZE_BYTES : Nat := 1 * (1 <<< 30)

def BLK_SIZE_BYTES : Nat := 4096

def RESERVED_DATA_BLKS : Nat := 3

def NUM_DATA_BLKS : Nat := FS_SIZE_BYTES / BLK_SIZE_BYTES

def MAX_NUM_INODES : Nat := 10

def RESERVED_INODES : Nat := 2

-- src/src/fs/bitmap.rs line 6: the block bitmap byte size divides the block
-- count by the block size (4096), not by 8; the source writes exactly this.
def FREE_BLK_BMAP_SIZE_BYTES : Nat := NUM_DATA_BLKS / BLK_SIZE_BYTES

def FREE_INODE_BMAP_SIZE_BYTES : Nat := (MAX_NUM_INODES + 7) / 8

def ROOT_INO : Nat := 1

def ROOT_INO_PERM : Nat := 0o755

def NUM_INO_DIRECT_PTR : Nat := 12

def INVALID_PTR : Nat := 0

def MAX_FILENAME_LEN : Nat := 255

-- size_of::<DirEntry>() for { ino_id: u32, name_len: u8, name: [u8; 255] }:
-- 4 + 1 + 255 = 260 bytes, already a multiple of the alignment 4.
def DIR_ENTRY_SIZE_BYTES : Nat := 260

def DIR_SIZE_LEN : Nat := BLK_SIZE_BYTES / DIR_ENTRY_SIZE_BYTES

/-! ## Error types -/

inductive BitMapError where
  | RestrictedEntry
  | AlreadyAlloced
  | AlreadyFree
  | NoFreeEntriesOnAlloc
  deriving DecidableEq, Repr

inductive FSMetadataError where
  | InoCountExceedingMax
  | InoCountBelowReserved
  | BlkCountExceedingMax
  | BlkCountBelowReserved
  deriving DecidableEq, Repr

inductive InodeError where
  | NoFreeInodesOnAlloc
  | InodeNotFound
  | InvalidInoId
  | BitmapError (e : BitMapError)
  deriving DecidableEq, Repr

inductive DirectoryError where
  | NameTooLong
  | NameEmpty
  | InvalidUtf8
  | NoEmptySlot
  deriving DecidableEq, Repr

inductive FileType where
  | NamedPipe
  | CharDevice
  | BlockDevice
  | Directory
  | RegularFile
  | Symlink
  | Socket
  deriving DecidableEq, Repr

/-! ## FSMetadata (src/src/fs/metadata.rs) -/

structure FSMetadata where
  ino_count : Nat
  blk_count : Nat
  free_blk_count : Nat
  free_ino_count : Nat
  super_blk_no : Nat
  mtime : Nat
  wtime : Nat
  deriving DecidableEq, Repr

def FSMetadata.default : FSMetadata where
  ino_count := MAX_NUM_INODES
  blk_count := NUM_DATA_BLKS
  free_blk_count := NUM_DATA_BLKS - RESERVED_DATA_BLKS
  free_ino_count := MAX_NUM_INODES - RESERVED_INODES
  super_blk_no := 0
  mtime := 0
  wtime := 0

/-- Source guard is `self.free_ino_count < 0` on a `u32`, which never holds;
the else branch then executes `self.free_ino_count -= 1`, which underflows
(panics under overflow checks) when the counter is already `0`. -/
def FSMetadata.dec_free_ino_count (m : FSMetadata) (now : Nat) :
    Option (Except FSMetadataError Unit × FSMetadata) :=
  if m.free_ino_count < 0 then
    some (.error .InoCountBelowReserved, m)
  else if m.free_ino_count = 0 then
    none
  else
    some (.ok (), { m with free_ino_count := m.free_ino_count - 1, mtime := now })

def FSMetadata.inc_free_ino_count (m : FSMetadata) (now : Nat) :
    Except FSMetadataError Unit × FSMetadata :=
  if m.free_ino_count ≥ MAX_NUM_INODES - RESERVED_INODES then
    (.error .InoCountExceedingMax, m)
  else
    (.ok (), { m with free_ino_count := m.free_ino_count + 1, mtime := now })

def FSMetadata.dec_free_blk_count (m : FSMetadata) (now : Nat) :
    Except FSMetadataError Unit × FSMetadata :=
  if m.free_blk_count > 0 then
    (.ok (), { m with free_blk_count := m.free_blk_count - 1, mtime := now })
  else
    (.error .BlkCountBelowReserved, m)

def FSMetadata.inc_free_blk_count (m : FSMetadata) (now : Nat) :
    Except FSMetadataError Unit × FSMetadata :=
  if m.free_blk_count < NUM_DATA_BLKS - RESERVED_DATA_BLKS then
    (.ok (), { m with free_blk_count := m.free_blk_count + 1, mtime := now })
  else
    (.error .BlkCountExceedingMax, m)

/-! ## Bitmaps (src/src/fs/bitmap.rs)

The trait `FreeObjectBitmap<N>` is modelled by functions over the backing
bit array (`Bits`), parameterized by the `RESERVED` and `MAX` associated
constants.  A `BitArray<[u8; N], Lsb0>` exposes exactly `8 * N` bits;
indexing at or past that bound panics. -/

abbrev Bits := Array Bool

/-- Total read of a bit array; positions outside the backing store read as
`false`.  This is a specification-side helper, not a source operation: the
source operations below bounds-check and panic exactly where `bitvec` does. -/
def bitGet (bits : Bits) (i : Nat) : Bool :=
  if h : i < bits.size then bits[i] else false

def set_alloc (reserved maxIdx : Nat) (bits : Bits) (idx : Nat) :
    Option (Except BitMapError Unit × Bits) :=
  if idx < reserved ∨ maxIdx ≤ idx then
    some (.error .RestrictedEntry, bits)
  else if h : idx < bits.size then
    if bits[idx] = true then
      some (.error .AlreadyAlloced, bits)
    else
      some (.ok (), bits.set ⟨idx, h⟩ true)
  else
    none

def set_free (reserved maxIdx : Nat) (bits : Bits) (idx : Nat) :
    Option (Except BitMapError Unit × Bits) :=
  if idx < reserved ∨ maxIdx ≤ idx then
    some (.error .RestrictedEntry, bits)
  else if h : idx < bits.size then
    if bits[idx] = false then
      some (.error .AlreadyFree, bits)
    else
      some (.ok (), bits.set ⟨idx, h⟩ false)
  else
    none

def find_first_free_from (bits : Bits) : Nat → Nat → Option (Option Nat)
  | _, 0 => some none
  | idx, fuel + 1 =>
    if h : idx < bits.size then
      if bits[idx] = true then
        find_first_free_from bits (idx + 1) fuel
      else
        some (some idx)
    else
      none

/-- `for idx in RESERVED..MAX { if !map[idx] { return Some(idx) } } None`,
with `none` (outer) modelling a panic when the scan indexes past the backing
bit array. -/
def find_first_free (reserved maxIdx : Nat) (bits : Bits) : Option (Option Nat) :=
  find_first_free_from bits reserved (maxIdx - reserved)

/-- `FreeBlockBitmap::default()`: the first `RESERVED_DATA_BLKS` bits set,
over a backing array of `8 * FREE_BLK_BMAP_SIZE_BYTES` bits. -/
def FreeBlockBitmap.default : Bits :=
  Array.ofFn (n := 8 * FREE_BLK_BMAP_SIZE_BYTES) fun i => decide (i.1 < RESERVED_DATA_BLKS)

/-- `FreeInodeBitmap::default()`: the first `RESERVED_INODES` bits set,
over a backing array of `8 * FREE_INODE_BMAP_SIZE_BYTES` bits. -/
def FreeInodeBitmap.default : Bits :=
  Array.ofFn (n := 8 * FREE_INODE_BMAP_SIZE_BYTES) fun i => decide (i.1 < RESERVED_INODES)

/-! ## Inode (src/src/fs/inode.rs) -/

structure Inode where
  ino_id : Nat
  size : Nat
  blocks : Nat
  mtime_secs : Nat
  kind : FileType
  perm : Nat
  direct_blks : List Nat
  indirect_blk : Nat
  dbl_indirect_blk : Nat
  tri_indirect_blk : Nat
  deriving DecidableEq, Repr

def Inode.new (ino_id : Nat) (kind : FileType) (perm : Nat) (now : Nat) : Inode where
  ino_id := ino_id
  size := 0
  blocks := 0
  mtime_secs := now
  kind := kind
  perm := perm
  direct_blks := List.replicate NUM_INO_DIRECT_PTR INVALID_PTR
  indirect_blk := INVALID_PTR
  dbl_indirect_blk := INVALID_PTR
  tri_indirect_blk := INVALID_PTR

def create_root_ino (now : Nat) : Inode :=
  Inode.new ROOT_INO FileType.Directory ROOT_INO_PERM now

/-! ## Directory codec (src/src/fs/directory.rs)

A Rust `&str` is a UTF-8 byte sequence; names are modelled by their byte
lists (`List Nat`, each entry a `u8` value), with `utf8_valid` the
validation `std::str::from_utf8` performs. -/

def utf8_cont (b : Nat) : Bool := 0x80 ≤ b && b ≤ 0xBF

def utf8_valid : List Nat → Bool
  | [] => true
  | b :: rest =>
    if b ≤ 0x7F then utf8_valid rest
    else if 0xC2 ≤ b && b ≤ 0xDF then
      match rest with
      | c1 :: r => utf8_cont c1 && utf8_valid r
      | [] => false
    else if b = 0xE0 then
      match rest with
      | c1 :: c2 :: r => (0xA0 ≤ c1 && c1 ≤ 0xBF) && utf8_cont c2 && utf8_valid r
      | _ => false
    else if (0xE1 ≤ b && b ≤ 0xEC) || b = 0xEE || b = 0xEF then
      match rest with
      | c1 :: c2 :: r => utf8_cont c1 && utf8_cont c2 && utf8_valid r
      | _ => false
    else if b = 0xED then
      match rest with
      | c1 :: c2 :: r => (0x80 ≤ c1 && c1 ≤ 0x9F) && utf8_cont c2 && utf8_valid r
      | _ => false
    else if b = 0xF0 then
      match rest with
      | c1 :: c2 :: c3 :: r => (0x90 ≤ c1 && c1 ≤ 0xBF) && utf8_cont c2 && utf8_cont c3 && utf8_valid r
      | _ => false
    else if 0xF1 ≤ b && b ≤ 0xF3 then
      match rest with
      | c1 :: c2 :: c3 :: r => utf8_cont c1 && utf8_cont c2 && utf8_cont c3 && utf8_valid r
      | _ => false
    else if b = 0xF4 then
      match rest with
      | c1 :: c2 :: c3 :: r => (0x80 ≤ c1 && c1 ≤ 0x8F) && utf8_cont c2 && utf8_cont c3 && utf8_valid r
      | _ => false
    else false

structure DirEntry where
  ino_id : Nat
  name_len : Nat
  name : List Nat
  deriving DecidableEq, Repr

def DirEntry.new (ino_id : Nat) (name : List Nat) : Except DirectoryError DirEntry :=
  if name.isEmpty then
    .error .NameEmpty
  else if name.length > MAX_FILENAME_LEN then
    .error .NameTooLong
  else
    .ok { ino_id := ino_id
          name_len := name.length
          name := name ++ List.replicate (MAX_FILENAME_LEN - name.length) 0 }

def DirEntry.name_str (e : DirEntry) : Except DirectoryError (List Nat) :=
  let bytes := e.name.take e.name_len
  if utf8_valid bytes then .ok bytes else .error .InvalidUtf8

structure Directory where
  dir_entries : List (Option DirEntry)
  deriving DecidableEq, Repr

def Directory.default : Directory where
  dir_entries := List.replicate DIR_SIZE_LEN none

/-- `set_entries` replaces the whole entry array; on the too-long error path
the source returns `Err(DirectoryError::NameTooLong)` (commented `Reusing
error for now`) and leaves the directory untouched. -/
def Directory.set_entries (d : Directory) (entries : List (Option DirEntry)) :
    Except DirectoryError Unit × Directory :=
  if entries.length > DIR_SIZE_LEN then
    (.error .NameTooLong, d)
  else
    (.ok (), { dir_entries := entries })

/-! ## Filesystem state (src/src/fs/state.rs) -/

structure Block where
  data : Array Nat
  deriving DecidableEq, Repr

inductive FSStateError where
  | InodeError (e : InodeError)
  | BitMapError (e : BitMapError)
  deriving DecidableEq, Repr

structure FSState where
  metadata : FSMetadata
  inode_bitmap : Bits
  inodes : Array (Option Inode)
  blk_bitmap : Bits
  blks : Array (Option Block)

/-- `FSState::default()`: fresh metadata and bitmaps, the inode and block
tables entirely empty.  The source's own comment notes the root inode has
not been created. -/
def FSState.default : FSState where
  metadata := FSMetadata.default
  inode_bitmap := FreeInodeBitmap.default
  inodes := Array.mkArray MAX_NUM_INODES none
  blk_bitmap := FreeBlockBitmap.default
  blks := Array.mkArray NUM_DATA_BLKS none

def FSState.alloc_inode (s : FSState) (now : Nat) (kind : FileType) (perm : Nat) :
    Option (Except InodeError Nat × FSState) :=
  match find_first_free RESERVED_INODES MAX_NUM_INODES s.inode_bitmap with
  | none => none
  | some none => some (.error .NoFreeInodesOnAlloc, s)
  | some (some idx) =>
    match set_alloc RESERVED_INODES MAX_NUM_INODES s.inode_bitmap idx with
    | none => none
    | some (.error _, bm) => some (.error .NoFreeInodesOnAlloc, { s with inode_bitmap := bm })
    | some (.ok _, bm) =>
      match FSMetadata.dec_free_ino_count s.metadata now with
      | none => none
      | some (.error _, md) =>
        some (.error .NoFreeInodesOnAlloc, { s with inode_bitmap := bm, metadata := md })
      | some (.ok _, md) =>
        if h : idx < s.inodes.size then
          some (.ok idx,
            { s with
              inode_bitmap := bm
              metadata := md
              inodes := s.inodes.set ⟨idx, h⟩ (some (Inode.new idx kind perm now)) })
        else none

def FSState.free_inode (s : FSState) (now : Nat) (ino_id : Nat) :
    Option (Except InodeError Unit × FSState) :=
  match set_free RESERVED_INODES MAX_NUM_INODES s.inode_bitmap ino_id with
  | none => none
  | some (.error e, bm) =>
    some (.error (match e with
        | .RestrictedEntry => .InvalidInoId
        | .AlreadyFree => .BitmapError .AlreadyFree
        | .AlreadyAlloced => .BitmapError .AlreadyAlloced
        | .NoFreeEntriesOnAlloc => .BitmapError .NoFreeEntriesOnAlloc),
      { s with inode_bitmap := bm })
  | some (.ok _, bm) =>
    match FSMetadata.inc_free_ino_count s.metadata now with
    | (.error _, md) =>
      some (.error .InvalidInoId, { s with inode_bitmap := bm, metadata := md })
    | (.ok _, md) =>
      if h : ino_id < s.inodes.size then
        some (.ok (),
          { s with
            inode_bitmap := bm
            metadata := md
            inodes := s.inodes.set ⟨ino_id, h⟩ none })
      else none

def FSState.alloc_blk (s : FSState) (now : Nat) :
    Option (Except BitMapError Nat × FSState) :=
  match find_first_free RESERVED_DATA_BLKS NUM_DATA_BLKS s.blk_bitmap with
  | none => none
  | some none => some (.error .NoFreeEntriesOnAlloc, s)
  | some (some idx) =>
    match set_alloc RESERVED_DATA_BLKS NUM_DATA_BLKS s.blk_bitmap idx with
    | none => none
    | some (.error e, bm) => some (.error e, { s with blk_bitmap := bm })
    | some (.ok _, bm) =>
      match FSMetadata.dec_free_blk_count s.metadata now with
      | (.error _, md) =>
        some (.error .RestrictedEntry, { s with blk_bitmap := bm, metadata := md })
      | (.ok _, md) =>
        if h : idx < s.blks.size then
          some (.ok idx,
            { s with
              blk_bitmap := bm
              metadata := md
              blks := s.blks.set ⟨idx, h⟩ (some ⟨Array.mkArray BLK_SIZE_BYTES 0⟩) })
        else none

def FSState.free_blk (s : FSState) (now : Nat) (blk_id : Nat) :
    Option (Except BitMapError Unit × FSState) :=
  match set_free RESERVED_DATA_BLKS NUM_DATA_BLKS s.blk_bitmap blk_id with
  | none => none
  | some (.error e, bm) => some (.error e, { s with blk_bitmap := bm })
  | some (.ok _, bm) =>
    match FSMetadata.inc_free_blk_count s.metadata now with
    | (.error _, md) =>
      some (.error .RestrictedEntry, { s with blk_bitmap := bm, metadata := md })
    | (.ok _, md) =>
      if h : blk_id < s.blks.size then
        some (.ok (),
          { s with
            blk_bitmap := bm
            metadata := md
            blks := s.blks.set ⟨blk_id, h⟩ none })
      else none

def FSState.get_ino_ref (s : FSState) (ino_id : Nat) :
    Option (Except FSStateError Inode) :=
  if h : ino_id < s.inodes.size then
    match s.inodes[ino_id] with
    | some ino => some (.ok ino)
    | none => some (.error (.InodeError .InodeNotFound))
  else none

def FSState.get_root_ino_ref (s : FSState) : Option (Except FSStateError Inode) :=
  s.get_ino_ref ROOT_INO

/-! ## Operation sequences over the state -/

inductive Op where
  | allocInode (now : Nat) (kind : FileType) (perm : Nat)
  | freeInode (now : Nat) (ino_id : Nat)
  | allocBlk (now : Nat)
  | freeBlk (now : Nat) (blk_id : Nat)

def applyOp (op : Op) (s : FSState) : Option FSState :=
  match op with
  | .allocInode now kind perm => (s.alloc_inode now kind perm).map Prod.snd
  | .freeInode now ino_id => (s.free_inode now ino_id).map Prod.snd
  | .allocBlk now => (s.alloc_blk now).map Prod.snd
  | .freeBlk now blk_id => (s.free_blk now blk_id).map Prod.snd

def runOps : List Op → FSState → Option FSState
  | [], s => some s
  | op :: ops, s =>
    match applyOp op s with
    | none => none
    | some s' => runOps ops s'

inductive InoOp where
  | alloc (now : Nat) (kind : FileType) (perm : Nat)
  | free (now : Nat) (ino_id : Nat)

/-- Runs a sequence of inode operations, recording each call's result: an
allocation's result is recorded as returned; a successful free of `ino_id`
is recorded as `.ok ino_id`. -/
def runInoTrace : List InoOp → FSState → Option (List (Except InodeError Nat) × FSState)
  | [], s => some ([], s)
  | .alloc now kind perm :: ops, s =>
    match s.alloc_inode now kind perm with
    | none => none
    | some (r, s') =>
      match runInoTrace ops s' with
      | none => none
      | some (rs, s'') => some (r :: rs, s'')
  | .free now ino_id :: ops, s =>
    match s.free_inode now ino_id with
    | none => none
    | some (r, s') =>
      match runInoTrace ops s' with
      | none => none
      | some (rs, s'') => some ((r.map fun _ => ino_id) :: rs, s'')

/-! ## Bit-counting helpers (specification side) -/

def countSetFrom (bits : Bits) : Nat → Nat → Nat
  | _, 0 => 0
  | lo, n + 1 => (if bitGet bits lo then 1 else 0) + countSetFrom bits (lo + 1) n

/-- Number of set bits of `bits` with index in `[lo, hi)`. -/
def countSet (bits : Bits) (lo hi : Nat) : Nat :=
  countSetFrom bits lo (hi - lo)

/-- Consistency invariant tying each bitmap to its metadata counter, plus
the structural facts (fixed capacities, immutable totals) needed to keep it
inductive across the allocate/free operations. -/
def Inv (s : FSState) : Prop :=
  s.metadata.ino_count = MAX_NUM_INODES ∧
  s.metadata.blk_count = NUM_DATA_BLKS ∧
  s.inode_bitmap.size = 8 * FREE_INODE_BMAP_SIZE_BYTES ∧
  s.blk_bitmap.size = 8 * FREE_BLK_BMAP_SIZE_BYTES ∧
  countSet s.inode_bitmap RESERVED_INODES MAX_NUM_INODES + s.metadata.free_ino_count
    = MAX_NUM_INODES - RESERVED_INODES ∧
  countSet s.blk_bitmap RESERVED_DATA_BLKS NUM_DATA_BLKS + s.metadata.free_blk_count
    = NUM_DATA_BLKS - RESERVED_DATA_BLKS

/-! ## Concrete instances used by witnesses -/

/-- The fresh inode bitmap with the first allocatable bit additionally set. -/
def inodeBitsWithTwo : Bits :=
  FreeInodeBitmap.default.set ⟨RESERVED_INODES, by decide⟩ true

/-- A filesystem state whose inode table holds an inode in slot 3. -/
def stateWithIno3 : FSState :=
  { FSState.default with
    inodes := FSState.default.inodes.set ⟨3, by decide⟩
      (some (Inode.new 3 FileType.RegularFile 0o644 21)) }

end RustyFS

namespace RustyFS

/-! ## Helper lemmas: constants, bit reads, bit counting -/

theorem RESERVED_INODES_eq : RESERVED_INODES = 2 := rfl

theorem MAX_NUM_INODES_eq : MAX_NUM_INODES = 10 := rfl

theorem RESERVED_DATA_BLKS_eq : RESERVED_DATA_BLKS = 3 := rfl

theorem NUM_DATA_BLKS_eq : NUM_DATA_BLKS = 262144 := by decide

theorem inode_bits_size_eq : 8 * FREE_INODE_BMAP_SIZE_BYTES = 16 := by decide

theorem blk_bits_size_eq : 8 * FREE_BLK_BMAP_SIZE_BYTES = 512 := by decide

theorem bitGet_eq (bits : Bits) (i : Nat) (h : i < bits.size) : bitGet bits i = bits[i] :=
  dif_pos h

theorem bitGet_true_lt (bits : Bits) (i : Nat) (h : bitGet bits i = true) : i < bits.size := by
  by_contra hge
  rw [bitGet, dif_neg hge] at h
  exact Bool.noConfusion h

theorem bitGet_set (bits : Bits) (i : Nat) (hi : i < bits.size) (v : Bool) (j : Nat) :
    bitGet (bits.set ⟨i, hi⟩ v) j = if i = j then v else bitGet bits j := by
  by_cases hij : i = j
  · subst hij
    rw [if_pos rfl, bitGet, dif_pos (by simpa using hi)]
    exact Array.getElem_set_eq bits ⟨i, hi⟩ v rfl _
  · rw [if_neg hij]
    unfold bitGet
    by_cases hj : j < bits.size
    · rw [dif_pos (by simpa using hj), dif_pos hj]
      exact Array.getElem_set_ne bits ⟨i, hi⟩ v _ hij
    · rw [dif_neg (by simpa using hj), dif_neg hj]

theorem countSetFrom_le (bits : Bits) (n : Nat) : ∀ lo, countSetFrom bits lo n ≤ n := by
  induction n with
  | zero => intro lo; simp [countSetFrom]
  | succ k ih =>
    intro lo
    simp only [countSetFrom]
    have := ih (lo + 1)
    split <;> omega

theorem countSetFrom_le_size (bits : Bits) (n : Nat) :
    ∀ lo, countSetFrom bits lo n ≤ bits.size - lo := by
  induction n with
  | zero => intro lo; simp [countSetFrom]
  | succ k ih =>
    intro lo
    simp only [countSetFrom]
    have hrec := ih (lo + 1)
    by_cases hb : bitGet bits lo = true
    · have hlt := bitGet_true_lt bits lo hb
      rw [if_pos hb]
      omega
    · rw [if_neg hb]
      omega

theorem countSetFrom_all_true (bits : Bits) (n : Nat) :
    ∀ lo, countSetFrom bits lo n = n →
      ∀ i, lo ≤ i → i < lo + n → bitGet bits i = true := by
  induction n with
  | zero => intro lo _ i h1 h2; omega
  | succ k ih =>
    intro lo h i h1 h2
    simp only [countSetFrom] at h
    have hle := countSetFrom_le bits k (lo + 1)
    by_cases hb : bitGet bits lo = true
    · rw [if_pos hb] at h
      rcases Nat.eq_or_lt_of_le h1 with heq | hlt
      · subst heq; exact hb
      · exact ih (lo + 1) (by omega) i (by omega) (by omega)
    · rw [if_neg hb] at h
      omega

theorem countSetFrom_all_false (bits : Bits) (n : Nat) :
    ∀ lo, countSetFrom bits lo n = 0 →
      ∀ i, lo ≤ i → i < lo + n → bitGet bits i = false := by
  induction n with
  | zero => intro lo _ i h1 h2; omega
  | succ k ih =>
    intro lo h i h1 h2
    simp only [countSetFrom] at h
    by_cases hb : bitGet bits lo = true
    · rw [if_pos hb] at h
      omega
    · rw [if_neg hb] at h
      rcases Nat.eq_or_lt_of_le h1 with heq | hlt
      · subst heq; exact Bool.eq_false_iff.mpr hb
      · exact ih (lo + 1) (by omega) i (by omega) (by omega)

theorem countSetFrom_eq_zero (bits : Bits) (n : Nat) :
    ∀ lo, (∀ i, lo ≤ i → i < lo + n → bitGet bits i = false) →
      countSetFrom bits lo n = 0 := by
  induction n with
  | zero => intro lo _; rfl
  | succ k ih =>
    intro lo hall
    simp only [countSetFrom]
    rw [if_neg (by rw [hall lo (Nat.le_refl lo) (by omega)]; exact Bool.false_ne_true),
      ih (lo + 1) (fun i h1 h2 => hall i (by omega) (by omega))]

theorem countSetFrom_set_below (bits : Bits) (n : Nat) :
    ∀ lo idx (hi : idx < bits.size) v, idx < lo →
      countSetFrom (bits.set ⟨idx, hi⟩ v) lo n = countSetFrom bits lo n := by
  induction n with
  | zero => intro lo idx hi v _; rfl
  | succ k ih =>
    intro lo idx hi v hlt
    simp only [countSetFrom]
    have hset : bitGet (bits.set ⟨idx, hi⟩ v) lo = bitGet bits lo := by
      rw [bitGet_set, if_neg (by omega)]
    rw [hset, ih (lo + 1) idx hi v (by omega)]

theorem countSetFrom_set_true (bits : Bits) (n : Nat) :
    ∀ lo idx (hi : idx < bits.size), lo ≤ idx → idx < lo + n → bitGet bits idx = false →
      countSetFrom (bits.set ⟨idx, hi⟩ true) lo n = countSetFrom bits lo n + 1 := by
  induction n with
  | zero => intro lo idx hi h1 h2 hb; omega
  | succ k ih =>
    intro lo idx hi h1 h2 hb
    simp only [countSetFrom]
    rcases Nat.eq_or_lt_of_le h1 with heq | hlt
    · subst heq
      have hset : bitGet (bits.set ⟨lo, hi⟩ true) lo = true := by
        rw [bitGet_set, if_pos rfl]
      rw [hset, hb, countSetFrom_set_below bits k (lo + 1) lo hi true (by omega)]
      simp [Nat.add_comm]
    · have hset : bitGet (bits.set ⟨idx, hi⟩ true) lo = bitGet bits lo := by
        rw [bitGet_set, if_neg (by omega)]
      rw [hset, ih (lo + 1) idx hi (by omega) (by omega) hb]
      omega

theorem countSetFrom_set_false (bits : Bits) (n : Nat) :
    ∀ lo idx (hi : idx < bits.size), lo ≤ idx → idx < lo + n → bitGet bits idx = true →
      countSetFrom bits lo n = countSetFrom (bits.set ⟨idx, hi⟩ false) lo n + 1 := by
  induction n with
  | zero => intro lo idx hi h1 h2 hb; omega
  | succ k ih =>
    intro lo idx hi h1 h2 hb
    simp only [countSetFrom]
    rcases Nat.eq_or_lt_of_le h1 with heq | hlt
    · subst heq
      have hset : bitGet (bits.set ⟨lo, hi⟩ false) lo = false := by
        rw [bitGet_set, if_pos rfl]
      rw [hset, hb, countSetFrom_set_below bits k (lo + 1) lo hi false (by omega)]
      simp [Nat.add_comm]
    · have hset : bitGet (bits.set ⟨idx, hi⟩ false) lo = bitGet bits lo := by
        rw [bitGet_set, if_neg (by omega)]
      rw [hset, ih (lo + 1) idx hi (by omega) (by omega) hb]
      omega

/-! ## Helper lemmas: bitmap operations -/

theorem find_first_free_from_some (bits : Bits) (fuel : Nat) :
    ∀ idx j, find_first_free_from bits idx fuel = some (some j) →
      idx ≤ j ∧ j < idx + fuel ∧ ∃ h : j < bits.size, bits[j] = false := by
  induction fuel with
  | zero =>
    intro idx j h
    simp only [find_first_free_from] at h
    exact Option.noConfusion (Option.some.inj h)
  | succ k ih =>
    intro idx j h
    simp only [find_first_free_from] at h
    by_cases hlt : idx < bits.size
    · rw [dif_pos hlt] at h
      by_cases hb : bits[idx] = true
      · rw [if_pos hb] at h
        obtain ⟨h1, h2, h3⟩ := ih (idx + 1) j h
        exact ⟨by omega, by omega, h3⟩
      · rw [if_neg hb] at h
        have hj : idx = j := Option.some.inj (Option.some.inj h)
        subst hj
        exact ⟨Nat.le_refl idx, by omega, hlt, Bool.eq_false_iff.mpr hb⟩
    · rw [dif_neg hlt] at h
      exact Option.noConfusion h

theorem set_alloc_ok (reserved maxIdx : Nat) (bits : Bits) (idx : Nat)
    (h1 : reserved ≤ idx) (h2 : idx < maxIdx) (h : idx < bits.size)
    (hb : bits[idx] = false) :
    set_alloc reserved maxIdx bits idx = some (.ok (), bits.set ⟨idx, h⟩ true) := by
  unfold set_alloc
  rw [if_neg (by omega), dif_pos h, if_neg (by rw [hb]; exact Bool.false_ne_true)]

theorem set_free_error_bits (reserved maxIdx : Nat) (bits : Bits) (idx : Nat)
    (e : BitMapError) (bm : Bits)
    (h : set_free reserved maxIdx bits idx = some (.error e, bm)) : bm = bits := by
  unfold set_free at h
  split at h
  · exact ((Prod.mk.inj (Option.some.inj h)).2).symm
  · split at h
    · split at h
      · exact ((Prod.mk.inj (Option.some.inj h)).2).symm
      · exact Except.noConfusion (Prod.mk.inj (Option.some.inj h)).1
    · exact Option.noConfusion h

theorem set_free_ok_inv (reserved maxIdx : Nat) (bits : Bits) (idx : Nat)
    (u : Unit) (bm : Bits)
    (h : set_free reserved maxIdx bits idx = some (.ok u, bm)) :
    reserved ≤ idx ∧ idx < maxIdx ∧
      ∃ hlt : idx < bits.size, bits[idx] = true ∧ bm = bits.set ⟨idx, hlt⟩ false := by
  unfold set_free at h
  split at h
  · next hcond => exact Except.noConfusion (Prod.mk.inj (Option.some.inj h)).1
  · next hcond =>
    split at h
    · next hlt =>
      split at h
      · next hbit => exact Except.noConfusion (Prod.mk.inj (Option.some.inj h)).1
      · next hbit =>
        refine ⟨by omega, by omega, hlt, ?_, ((Prod.mk.inj (Option.some.inj h)).2).symm⟩
        cases hv : bits[idx] with
        | true => rfl
        | false => exact absurd hv hbit
    · next hlt => exact Option.noConfusion h

theorem dec_free_ino_count_ok (m : FSMetadata) (now : Nat) (h : m.free_ino_count ≠ 0) :
    m.dec_free_ino_count now
      = some (.ok (), { m with free_ino_count := m.free_ino_count - 1, mtime := now }) := by
  unfold FSMetadata.dec_free_ino_count
  rw [if_neg (by omega), if_neg h]

/-! ## Helper lemmas: the invariant is inductive -/

theorem Inv_alloc_inode (s : FSState) (now : Nat) (kind : FileType) (perm : Nat)
    (hinv : Inv s) (r : Except InodeError Nat) (s' : FSState)
    (h : s.alloc_inode now kind perm = some (r, s')) : Inv s' := by
  obtain ⟨hic, hbc, hisz, hbsz, hicount, hbcount⟩ := hinv
  have e1 := RESERVED_INODES_eq
  have e2 := MAX_NUM_INODES_eq
  unfold FSState.alloc_inode at h
  split at h
  · exact Option.noConfusion h
  · next heq =>
    obtain ⟨hr, hs⟩ := Prod.mk.inj (Option.some.inj h)
    exact hs ▸ ⟨hic, hbc, hisz, hbsz, hicount, hbcount⟩
  · next idx heq =>
    unfold find_first_free at heq
    obtain ⟨hge, hlt, hsz2, hbit⟩ :=
      find_first_free_from_some s.inode_bitmap (MAX_NUM_INODES - RESERVED_INODES)
        RESERVED_INODES idx heq
    have hred := set_alloc_ok RESERVED_INODES MAX_NUM_INODES s.inode_bitmap idx
      hge (by omega) hsz2 hbit
    split at h
    · exact Option.noConfusion h
    · next e bm heq2 =>
      rw [hred] at heq2
      exact Except.noConfusion (Prod.mk.inj (Option.some.inj heq2)).1
    · next u bm heq2 =>
      rw [hred] at heq2
      have hbm : s.inode_bitmap.set ⟨idx, hsz2⟩ true = bm :=
        (Prod.mk.inj (Option.some.inj heq2)).2
      have hz : s.metadata.free_ino_count ≠ 0 := by
        intro h0
        unfold countSet at hicount
        have hcs : countSetFrom s.inode_bitmap RESERVED_INODES
            (MAX_NUM_INODES - RESERVED_INODES) = MAX_NUM_INODES - RESERVED_INODES := by omega
        have hall := countSetFrom_all_true s.inode_bitmap
          (MAX_NUM_INODES - RESERVED_INODES) RESERVED_INODES hcs idx hge hlt
        rw [bitGet_eq s.inode_bitmap idx hsz2, hbit] at hall
        exact Bool.noConfusion hall
      split at h
      · exact Option.noConfusion h
      · next e md heq3 =>
        rw [dec_free_ino_count_ok s.metadata now hz] at heq3
        exact Except.noConfusion (Prod.mk.inj (Option.some.inj heq3)).1
      · next u2 md heq3 =>
        rw [dec_free_ino_count_ok s.metadata now hz] at heq3
        have hmd : ({ s.metadata with
            free_ino_count := s.metadata.free_ino_count - 1, mtime := now } : FSMetadata) = md :=
          (Prod.mk.inj (Option.some.inj heq3)).2
        split at h
        · next hts =>
          obtain ⟨hr, hs⟩ := Prod.mk.inj (Option.some.inj h)
          subst hs
          subst hbm
          subst hmd
          refine ⟨hic, hbc, ?_, hbsz, ?_, hbcount⟩
          · simpa using hisz
          · show countSet (s.inode_bitmap.set ⟨idx, hsz2⟩ true) RESERVED_INODES MAX_NUM_INODES
                + (s.metadata.free_ino_count - 1) = MAX_NUM_INODES - RESERVED_INODES
            unfold countSet at hicount ⊢
            rw [countSetFrom_set_true s.inode_bitmap (MAX_NUM_INODES - RESERVED_INODES)
              RESERVED_INODES idx hsz2 hge hlt
              (by rw [bitGet_eq s.inode_bitmap idx hsz2]; exact hbit)]
            omega
        · next hts => exact Option.noConfusion h

theorem Inv_free_inode (s : FSState) (now : Nat) (ino_id : Nat)
    (hinv : Inv s) (r : Except InodeError Unit) (s' : FSState)
    (h : s.free_inode now ino_id = some (r, s')) : Inv s' := by
  obtain ⟨hic, hbc, hisz, hbsz, hicount, hbcount⟩ := hinv
  have e1 := RESERVED_INODES_eq
  have e2 := MAX_NUM_INODES_eq
  unfold FSState.free_inode at h
  split at h
  · exact Option.noConfusion h
  · next e bm heq =>
    have hbm := set_free_error_bits RESERVED_INODES MAX_NUM_INODES s.inode_bitmap ino_id e bm heq
    obtain ⟨hr, hs⟩ := Prod.mk.inj (Option.some.inj h)
    subst hs
    subst hbm
    exact ⟨hic, hbc, hisz, hbsz, hicount, hbcount⟩
  · next u bm heq =>
    obtain ⟨hge, hlt, hsz2, hbit, hbm⟩ :=
      set_free_ok_inv RESERVED_INODES MAX_NUM_INODES s.inode_bitmap ino_id u bm heq
    split at h
    · next e md heq2 =>
      exfalso
      unfold FSMetadata.inc_free_ino_count at heq2
      by_cases hgecnt : s.metadata.free_ino_count ≥ MAX_NUM_INODES - RESERVED_INODES
      · unfold countSet at hicount
        have hcs : countSetFrom s.inode_bitmap RESERVED_INODES
            (MAX_NUM_INODES - RESERVED_INODES) = 0 := by
          have hle := countSetFrom_le s.inode_bitmap (MAX_NUM_INODES - RESERVED_INODES)
            RESERVED_INODES
          omega
        have hallf := countSetFrom_all_false s.inode_bitmap
          (MAX_NUM_INODES - RESERVED_INODES) RESERVED_INODES hcs ino_id hge (by omega)
        rw [bitGet_eq s.inode_bitmap ino_id hsz2, hbit] at hallf
        exact Bool.noConfusion hallf
      · rw [if_neg hgecnt] at heq2
        exact Except.noConfusion (Prod.mk.inj heq2).1
    · next u2 md heq2 =>
      unfold FSMetadata.inc_free_ino_count at heq2
      by_cases hgecnt : s.metadata.free_ino_count ≥ MAX_NUM_INODES - RESERVED_INODES
      · rw [if_pos hgecnt] at heq2
        exact Except.noConfusion (Prod.mk.inj heq2).1
      · rw [if_neg hgecnt] at heq2
        have hmd : ({ s.metadata with
            free_ino_count := s.metadata.free_ino_count + 1, mtime := now } : FSMetadata) = md :=
          (Prod.mk.inj heq2).2
        split at h
        · next hts =>
          obtain ⟨hr, hs⟩ := Prod.mk.inj (Option.some.inj h)
          subst hs
          subst hbm
          subst hmd
          refine ⟨hic, hbc, ?_, hbsz, ?_, hbcount⟩
          · simpa using hisz
          · show countSet (s.inode_bitmap.set ⟨ino_id, hsz2⟩ false) RESERVED_INODES MAX_NUM_INODES
                + (s.metadata.free_ino_count + 1) = MAX_NUM_INODES - RESERVED_INODES
            unfold countSet at hicount ⊢
            have hcnt := countSetFrom_set_false s.inode_bitmap
              (MAX_NUM_INODES - RESERVED_INODES) RESERVED_INODES ino_id hsz2 hge (by omega)
              (by rw [bitGet_eq s.inode_bitmap ino_id hsz2]; exact hbit)
            omega
        · next hts => exact Option.noConfusion h

theorem Inv_alloc_blk (s : FSState) (now : Nat)
    (hinv : Inv s) (r : Except BitMapError Nat) (s' : FSState)
    (h : s.alloc_blk now = some (r, s')) : Inv s' := by
  obtain ⟨hic, hbc, hisz, hbsz, hicount, hbcount⟩ := hinv
  have e1 := RESERVED_DATA_BLKS_eq
  have e2 := NUM_DATA_BLKS_eq
  have e3 := blk_bits_size_eq
  unfold FSState.alloc_blk at h
  split at h
  · exact Option.noConfusion h
  · next heq =>
    obtain ⟨hr, hs⟩ := Prod.mk.inj (Option.some.inj h)
    exact hs ▸ ⟨hic, hbc, hisz, hbsz, hicount, hbcount⟩
  · next idx heq =>
    unfold find_first_free at heq
    obtain ⟨hge, hlt, hsz2, hbit⟩ :=
      find_first_free_from_some s.blk_bitmap (NUM_DATA_BLKS - RESERVED_DATA_BLKS)
        RESERVED_DATA_BLKS idx heq
    have hred := set_alloc_ok RESERVED_DATA_BLKS NUM_DATA_BLKS s.blk_bitmap idx
      hge (by omega) hsz2 hbit
    split at h
    · exact Option.noConfusion h
    · next e bm heq2 =>
      rw [hred] at heq2
      exact Except.noConfusion (Prod.mk.inj (Option.some.inj heq2)).1
    · next u bm heq2 =>
      rw [hred] at heq2
      have hbm : s.blk_bitmap.set ⟨idx, hsz2⟩ true = bm :=
        (Prod.mk.inj (Option.some.inj heq2)).2
      have hz : s.metadata.free_blk_count > 0 := by
        by_contra h0
        unfold countSet at hbcount
        have hle := countSetFrom_le_size s.blk_bitmap (NUM_DATA_BLKS - RESERVED_DATA_BLKS)
          RESERVED_DATA_BLKS
        omega
      split at h
      · next e md heq3 =>
        exfalso
        unfold FSMetadata.dec_free_blk_count at heq3
        rw [if_pos hz] at heq3
        exact Except.noConfusion (Prod.mk.inj heq3).1
      · next u2 md heq3 =>
        unfold FSMetadata.dec_free_blk_count at heq3
        rw [if_pos hz] at heq3
        have hmd : ({ s.metadata with
            free_blk_count := s.metadata.free_blk_count - 1, mtime := now } : FSMetadata) = md :=
          (Prod.mk.inj heq3).2
        split at h
        · next hts =>
          obtain ⟨hr, hs⟩ := Prod.mk.inj (Option.some.inj h)
          subst hs
          subst hbm
          subst hmd
          refine ⟨hic, hbc, hisz, ?_, hicount, ?_⟩
          · simpa using hbsz
          · show countSet (s.blk_bitmap.set ⟨idx, hsz2⟩ true) RESERVED_DATA_BLKS NUM_DATA_BLKS
                + (s.metadata.free_blk_count - 1) = NUM_DATA_BLKS - RESERVED_DATA_BLKS
            unfold countSet at hbcount ⊢
            rw [countSetFrom_set_true s.blk_bitmap (NUM_DATA_BLKS - RESERVED_DATA_BLKS)
              RESERVED_DATA_BLKS idx hsz2 hge hlt
              (by rw [bitGet_eq s.blk_bitmap idx hsz2]; exact hbit)]
            omega
        · next hts => exact Option.noConfusion h

theorem Inv_free_blk (s : FSState) (now : Nat) (blk_id : Nat)
    (hinv : Inv s) (r : Except BitMapError Unit) (s' : FSState)
    (h : s.free_blk now blk_id = some (r, s')) : Inv s' := by
  obtain ⟨hic, hbc, hisz, hbsz, hicount, hbcount⟩ := hinv
  have e1 := RESERVED_DATA_BLKS_eq
  have e2 := NUM_DATA_BLKS_eq
  unfold FSState.free_blk at h
  split at h
  · exact Option.noConfusion h
  · next e bm heq =>
    have hbm := set_free_error_bits RESERVED_DATA_BLKS NUM_DATA_BLKS s.blk_bitmap blk_id e bm heq
    obtain ⟨hr, hs⟩ := Prod.mk.inj (Option.some.inj h)
    subst hs
    subst hbm
    exact ⟨hic, hbc, hisz, hbsz, hicount, hbcount⟩
  · next u bm heq =>
    obtain ⟨hge, hlt, hsz2, hbit, hbm⟩ :=
      set_free_ok_inv RESERVED_DATA_BLKS NUM_DATA_BLKS s.blk_bitmap blk_id u bm heq
    split at h
    · next e md heq2 =>
      exfalso
      unfold FSMetadata.inc_free_blk_count at heq2
      by_cases hgecnt : s.metadata.free_blk_count < NUM_DATA_BLKS - RESERVED_DATA_BLKS
      · rw [if_pos hgecnt] at heq2
        exact Except.noConfusion (Prod.mk.inj heq2).1
      · unfold countSet at hbcount
        have hcs : countSetFrom s.blk_bitmap RESERVED_DATA_BLKS
            (NUM_DATA_BLKS - RESERVED_DATA_BLKS) = 0 := by omega
        have hallf := countSetFrom_all_false s.blk_bitmap
          (NUM_DATA_BLKS - RESERVED_DATA_BLKS) RESERVED_DATA_BLKS hcs blk_id hge (by omega)
        rw [bitGet_eq s.blk_bitmap blk_id hsz2, hbit] at hallf
        exact Bool.noConfusion hallf
    · next u2 md heq2 =>
      unfold FSMetadata.inc_free_blk_count at heq2
      by_cases hgecnt : s.metadata.free_blk_count < NUM_DATA_BLKS - RESERVED_DATA_BLKS
      · rw [if_pos hgecnt] at heq2
        have hmd : ({ s.metadata with
            free_blk_count := s.metadata.free_blk_count + 1, mtime := now } : FSMetadata) = md :=
          (Prod.mk.inj heq2).2
        split at h
        · next hts =>
          obtain ⟨hr, hs⟩ := Prod.mk.inj (Option.some.inj h)
          subst hs
          subst hbm
          subst hmd
          refine ⟨hic, hbc, hisz, ?_, hicount, ?_⟩
          · simpa using hbsz
          · show countSet (s.blk_bitmap.set ⟨blk_id, hsz2⟩ false) RESERVED_DATA_BLKS NUM_DATA_BLKS
                + (s.metadata.free_blk_count + 1) = NUM_DATA_BLKS - RESERVED_DATA_BLKS
            unfold countSet at hbcount ⊢
            have hcnt := countSetFrom_set_false s.blk_bitmap
              (NUM_DATA_BLKS - RESERVED_DATA_BLKS) RESERVED_DATA_BLKS blk_id hsz2 hge (by omega)
              (by rw [bitGet_eq s.blk_bitmap blk_id hsz2]; exact hbit)
            omega
        · next hts => exact Option.noConfusion h
      · rw [if_neg hgecnt] at heq2
        exact Except.noConfusion (Prod.mk.inj heq2).1

theorem Inv_applyOp (op : Op) (s s' : FSState) (hinv : Inv s)
    (h : applyOp op s = some s') : Inv s' := by
  cases op with
  | allocInode now kind perm =>
    unfold applyOp at h
    rw [Option.map_eq_some'] at h
    obtain ⟨⟨r, st⟩, hsome, hsnd⟩ := h
    exact hsnd ▸ Inv_alloc_inode s now kind perm hinv r st hsome
  | freeInode now ino_id =>
    unfold applyOp at h
    rw [Option.map_eq_some'] at h
    obtain ⟨⟨r, st⟩, hsome, hsnd⟩ := h
    exact hsnd ▸ Inv_free_inode s now ino_id hinv r st hsome
  | allocBlk now =>
    unfold applyOp at h
    rw [Option.map_eq_some'] at h
    obtain ⟨⟨r, st⟩, hsome, hsnd⟩ := h
    exact hsnd ▸ Inv_alloc_blk s now hinv r st hsome
  | freeBlk now blk_id =>
    unfold applyOp at h
    rw [Option.map_eq_some'] at h
    obtain ⟨⟨r, st⟩, hsome, hsnd⟩ := h
    exact hsnd ▸ Inv_free_blk s now blk_id hinv r st hsome

theorem Inv_runOps (ops : List Op) : ∀ s s', Inv s → runOps ops s = some s' → Inv s' := by
  induction ops with
  | nil =>
    intro s s' hinv h
    exact (Option.some.inj h) ▸ hinv
  | cons op ops ih =>
    intro s s' hinv h
    unfold runOps at h
    split at h
    · exact Option.noConfusion h
    · next s1 heq => exact ih s1 s' (Inv_applyOp op s s1 hinv heq) h

theorem countSetFrom_blk_default_zero :
    countSetFrom FSState.default.blk_bitmap RESERVED_DATA_BLKS
      (NUM_DATA_BLKS - RESERVED_DATA_BLKS) = 0 := by
  apply countSetFrom_eq_zero
  intro i h1 h2
  unfold bitGet
  by_cases hi : i < (FSState.default.blk_bitmap).size
  · rw [dif_pos hi]
    have hi2 : i < FreeBlockBitmap.default.size := by simpa [FSState.default] using hi
    show FreeBlockBitmap.default[i] = false
    unfold FreeBlockBitmap.default
    rw [Array.getElem_ofFn]
    simp only [decide_eq_false_iff_not]
    have e1 := RESERVED_DATA_BLKS_eq
    omega
  · rw [dif_neg hi]

theorem countSet_blk_default_zero :
    countSet FSState.default.blk_bitmap RESERVED_DATA_BLKS NUM_DATA_BLKS = 0 :=
  countSetFrom_blk_default_zero

theorem Inv_default : Inv FSState.default := by
  refine ⟨rfl, rfl, by simp [FSState.default, FreeInodeBitmap.default],
    by simp [FSState.default, FreeBlockBitmap.default], by decide, ?_⟩
  rw [countSet_blk_default_zero]
  rfl

/-- C1: the claim says `dec_free_ino_count` with `free_ino_count = 0` returns
`InoCountBelowReserved` and leaves the counter unchanged.  The source guard
`free_ino_count < 0` never fires on a `u32`, so the decrement underflows
instead (a panic under overflow checks, modelled as `none`): the claimed
error is never produced. -/
theorem dec_free_ino_count_underflows_at_zero :
    FSMetadata.dec_free_ino_count { FSMetadata.default with free_ino_count := 0 } 5 = none ∧
    (FSMetadata.dec_free_ino_count { FSMetadata.default with free_ino_count := 0 } 5 ≠
      some (.error .InoCountBelowReserved, { FSMetadata.default with free_ino_count := 0 })) := by
  constructor
  · rfl
  · intro h
    simp [FSMetadata.dec_free_ino_count, FSMetadata.default] at h

/-- C3: the block bitmap's backing bit array holds `8 * FREE_BLK_BMAP_SIZE_BYTES
= 512` bits, far fewer than `NUM_DATA_BLKS = 262144`, because the byte-size
constant divides by the block size instead of by 8.  `set_alloc` and
`set_free` at the in-range index 512 therefore panic on an out-of-bounds
bit index (modelled as `none`) instead of accessing a bit. -/
theorem blk_bitmap_backing_undersized :
    8 * FREE_BLK_BMAP_SIZE_BYTES = 512 ∧
    FreeBlockBitmap.default.size = 512 ∧
    512 < NUM_DATA_BLKS ∧
    set_alloc RESERVED_DATA_BLKS NUM_DATA_BLKS FreeBlockBitmap.default 512 = none ∧
    set_free RESERVED_DATA_BLKS NUM_DATA_BLKS FreeBlockBitmap.default 512 = none := by
  refine ⟨by decide, by simp only [FreeBlockBitmap.default, Array.size_ofFn]; decide, by decide, ?_, ?_⟩
  · simp [set_alloc, RESERVED_DATA_BLKS, NUM_DATA_BLKS, FS_SIZE_BYTES, BLK_SIZE_BYTES,
      FreeBlockBitmap.default, FREE_BLK_BMAP_SIZE_BYTES]
  · simp [set_free, RESERVED_DATA_BLKS, NUM_DATA_BLKS, FS_SIZE_BYTES, BLK_SIZE_BYTES,
      FreeBlockBitmap.default, FREE_BLK_BMAP_SIZE_BYTES]

/-- C4: the claim says a freshly defaulted state holds the root directory
inode in slot 1, so `get_root_ino_ref` succeeds.  `FSState::default()`
leaves every inode-table slot empty (its body comment admits the root has
not been created), so `get_root_ino_ref` returns `InodeNotFound`;
`create_root_ino` would build the claimed inode but is never called. -/
theorem get_root_ino_ref_default_not_found :
    FSState.default.get_root_ino_ref = some (.error (.InodeError .InodeNotFound)) ∧
    create_root_ino 0 = Inode.new ROOT_INO FileType.Directory ROOT_INO_PERM 0 :=
  ⟨rfl, rfl⟩

/-- C5 counterexample: `set_entries` on an over-long entry array returns
`NameTooLong` (the source comments `Reusing error for now`), not the
`NoEmptySlot` the claim names. -/
theorem set_entries_overflow_error_not_NoEmptySlot :
    (Directory.default.set_entries (List.replicate (DIR_SIZE_LEN + 1) none)).1
      ≠ .error .NoEmptySlot := by
  intro h
  have h2 : DirectoryError.NameTooLong = DirectoryError.NoEmptySlot := by
    have hred : (Directory.default.set_entries (List.replicate (DIR_SIZE_LEN + 1) none)).1
        = .error .NameTooLong := rfl
    injection hred.symm.trans h
  cases h2

/-- C5 amended: `set_entries` returns the `NameTooLong` error (reused for
the too-many case) when the entry array is longer than `DIR_SIZE_LEN`,
leaving the directory unchanged; otherwise it replaces the whole entry
array and returns Ok. -/
theorem set_entries_spec (d : Directory) (entries : List (Option DirEntry)) :
    (DIR_SIZE_LEN < entries.length →
      d.set_entries entries = (.error .NameTooLong, d)) ∧
    (entries.length ≤ DIR_SIZE_LEN →
      d.set_entries entries = (.ok (), { dir_entries := entries })) := by
  refine ⟨fun h => ?_, fun h => ?_⟩
  · unfold Directory.set_entries
    rw [if_pos h]
  · unfold Directory.set_entries
    rw [if_neg (by omega)]

theorem set_entries_spec_witness :
    (DIR_SIZE_LEN < (List.replicate (DIR_SIZE_LEN + 1) (none : Option DirEntry)).length ∧
      Directory.default.set_entries (List.replicate (DIR_SIZE_LEN + 1) none)
        = (.error .NameTooLong, Directory.default)) ∧
    ((List.replicate 3 (none : Option DirEntry)).length ≤ DIR_SIZE_LEN ∧
      Directory.default.set_entries (List.replicate 3 none)
        = (.ok (), { dir_entries := List.replicate 3 none })) :=
  ⟨⟨by decide, (set_entries_spec Directory.default _).1 (by decide)⟩,
   ⟨by decide, (set_entries_spec Directory.default _).2 (by decide)⟩⟩

/-- C6: for any bitmap and index, an index outside `[reserved, maxIdx)`
makes both `set_alloc` and `set_free` return `RestrictedEntry`; an in-range
bit that is already set makes `set_alloc` return `AlreadyAlloced`; an
in-range bit that is already clear makes `set_free` return `AlreadyFree`;
in every one of these error cases the returned bit array is exactly the
input one. -/
theorem bitmap_set_ops_error_cases (reserved maxIdx : Nat) (bits : Bits) (idx : Nat) :
    (idx < reserved ∨ maxIdx ≤ idx →
      set_alloc reserved maxIdx bits idx = some (.error .RestrictedEntry, bits) ∧
      set_free reserved maxIdx bits idx = some (.error .RestrictedEntry, bits)) ∧
    (∀ h : idx < bits.size, reserved ≤ idx → idx < maxIdx →
      (bits[idx] = true →
        set_alloc reserved maxIdx bits idx = some (.error .AlreadyAlloced, bits)) ∧
      (bits[idx] = false →
        set_free reserved maxIdx bits idx = some (.error .AlreadyFree, bits))) := by
  refine ⟨fun h => ⟨?_, ?_⟩, fun h h1 h2 => ⟨fun hb => ?_, fun hb => ?_⟩⟩
  · unfold set_alloc
    rw [if_pos h]
  · unfold set_free
    rw [if_pos h]
  · unfold set_alloc
    rw [if_neg (by omega), dif_pos h, if_pos hb]
  · unfold set_free
    rw [if_neg (by omega), dif_pos h, if_pos hb]

theorem bitmap_set_ops_error_cases_witness :
    (set_alloc RESERVED_INODES MAX_NUM_INODES FreeInodeBitmap.default 0
        = some (.error .RestrictedEntry, FreeInodeBitmap.default) ∧
      set_free RESERVED_INODES MAX_NUM_INODES FreeInodeBitmap.default 0
        = some (.error .RestrictedEntry, FreeInodeBitmap.default)) ∧
    set_alloc RESERVED_INODES MAX_NUM_INODES inodeBitsWithTwo 2
        = some (.error .AlreadyAlloced, inodeBitsWithTwo) ∧
    set_free RESERVED_INODES MAX_NUM_INODES FreeInodeBitmap.default 5
        = some (.error .AlreadyFree, FreeInodeBitmap.default) :=
  ⟨(bitmap_set_ops_error_cases RESERVED_INODES MAX_NUM_INODES FreeInodeBitmap.default 0).1
      (Or.inl (by decide)),
   ((bitmap_set_ops_error_cases RESERVED_INODES MAX_NUM_INODES inodeBitsWithTwo 2).2
      (by decide) (by decide) (by decide)).1 (by decide),
   ((bitmap_set_ops_error_cases RESERVED_INODES MAX_NUM_INODES FreeInodeBitmap.default 5).2
      (by decide) (by decide) (by decide)).2 (by decide)⟩

/-- C7: on a fresh state the first three `alloc_inode` calls return
`RESERVED_INODES`, `RESERVED_INODES + 1`, `RESERVED_INODES + 2`; and after
freeing a just-allocated id the next allocation returns the same id
(first-fit reuse). -/
theorem alloc_inode_sequential_and_first_fit_reuse :
    ((runInoTrace
        [.alloc 11 .RegularFile 0, .alloc 12 .RegularFile 0, .alloc 13 .RegularFile 0]
        FSState.default).map Prod.fst
      = some [.ok RESERVED_INODES, .ok (RESERVED_INODES + 1), .ok (RESERVED_INODES + 2)]) ∧
    ((runInoTrace
        [.alloc 11 .RegularFile 0, .free 12 RESERVED_INODES, .alloc 13 .RegularFile 0]
        FSState.default).map Prod.fst
      = some [.ok RESERVED_INODES, .ok RESERVED_INODES, .ok RESERVED_INODES]) :=
  ⟨rfl, rfl⟩

/-- C8: from a fresh state, the first `MAX_NUM_INODES - RESERVED_INODES = 8`
`alloc_inode` calls all succeed (returning ids 2 through 9), the ninth
fails with `NoFreeInodesOnAlloc`, and `free_ino_count` reads 0 at that
point. -/
theorem alloc_inode_exhaustion :
    (runInoTrace
        (List.replicate (MAX_NUM_INODES - RESERVED_INODES + 1) (.alloc 7 .RegularFile 0))
        FSState.default).map (fun p => (p.1, p.2.metadata.free_ino_count))
      = some ([.ok 2, .ok 3, .ok 4, .ok 5, .ok 6, .ok 7, .ok 8, .ok 9,
               .error .NoFreeInodesOnAlloc], 0) :=
  rfl

/-- C10: over a state whose inode table has the defaulted length
`MAX_NUM_INODES`, `get_ino_ref` returns the inode for an occupied in-range
slot, the `InodeNotFound` error for an empty in-range slot, and panics
(out-of-bounds table index, modelled `none`) for every id at or above
`MAX_NUM_INODES`. -/
theorem get_ino_ref_spec (s : FSState) (hsize : s.inodes.size = MAX_NUM_INODES) (ino_id : Nat) :
    (∀ ino, s.inodes[ino_id]? = some (some ino) →
      s.get_ino_ref ino_id = some (.ok ino)) ∧
    (s.inodes[ino_id]? = some none →
      s.get_ino_ref ino_id = some (.error (.InodeError .InodeNotFound))) ∧
    (MAX_NUM_INODES ≤ ino_id → s.get_ino_ref ino_id = none) := by
  refine ⟨fun ino h => ?_, fun h => ?_, fun h => ?_⟩
  · have hlt : ino_id < s.inodes.size := by
      by_contra hge
      rw [getElem?_neg s.inodes ino_id (by omega)] at h
      exact (Option.noConfusion h)
    have hv : s.inodes[ino_id] = some ino := by
      rw [Array.getElem?_eq_getElem hlt] at h
      exact Option.some.inj h
    unfold FSState.get_ino_ref
    rw [dif_pos hlt, hv]
  · have hlt : ino_id < s.inodes.size := by
      by_contra hge
      rw [getElem?_neg s.inodes ino_id (by omega)] at h
      exact (Option.noConfusion h)
    have hv : s.inodes[ino_id] = none := by
      rw [Array.getElem?_eq_getElem hlt] at h
      exact Option.some.inj h
    unfold FSState.get_ino_ref
    rw [dif_pos hlt, hv]
  · unfold FSState.get_ino_ref
    rw [dif_neg (by omega)]

theorem get_ino_ref_spec_witness :
    (stateWithIno3.inodes[3]? = some (some (Inode.new 3 FileType.RegularFile 0o644 21)) ∧
      stateWithIno3.get_ino_ref 3 = some (.ok (Inode.new 3 FileType.RegularFile 0o644 21))) ∧
    (FSState.default.inodes[4]? = some none ∧
      FSState.default.get_ino_ref 4 = some (.error (.InodeError .InodeNotFound))) ∧
    (MAX_NUM_INODES ≤ 12 ∧ FSState.default.get_ino_ref 12 = none) :=
  ⟨⟨by decide,
    (get_ino_ref_spec stateWithIno3 (by decide) 3).1 _ (by decide)⟩,
   ⟨by decide,
    (get_ino_ref_spec FSState.default (by decide) 4).2.1 (by decide)⟩,
   ⟨by decide,
    (get_ino_ref_spec FSState.default (by decide) 12).2.2 (by decide)⟩⟩

/-- C2: after any sequence of allocate/free calls starting from
`FSState::default()`, the number of set bits of the inode bitmap in
`[RESERVED_INODES, MAX_NUM_INODES)` equals
`(ino_count - RESERVED_INODES) - free_ino_count`, and the number of set bits
of the block bitmap in `[RESERVED_DATA_BLKS, NUM_DATA_BLKS)` equals
`(blk_count - RESERVED_DATA_BLKS) - free_blk_count`. -/
theorem counter_bitmap_agreement (ops : List Op) (s : FSState)
    (h : runOps ops FSState.default = some s) :
    countSet s.inode_bitmap RESERVED_INODES MAX_NUM_INODES
        = (s.metadata.ino_count - RESERVED_INODES) - s.metadata.free_ino_count ∧
    countSet s.blk_bitmap RESERVED_DATA_BLKS NUM_DATA_BLKS
        = (s.metadata.blk_count - RESERVED_DATA_BLKS) - s.metadata.free_blk_count := by
  obtain ⟨hic, hbc, _, _, hicount, hbcount⟩ :=
    Inv_runOps ops FSState.default s Inv_default h
  rw [hic, hbc]
  have e1 := RESERVED_INODES_eq
  have e2 := MAX_NUM_INODES_eq
  have e3 := RESERVED_DATA_BLKS_eq
  have e4 := NUM_DATA_BLKS_eq
  constructor
  · omega
  · omega

theorem counter_bitmap_agreement_witness :
    runOps [] FSState.default = some FSState.default ∧
    (countSet FSState.default.inode_bitmap RESERVED_INODES MAX_NUM_INODES
        = (FSState.default.metadata.ino_count - RESERVED_INODES)
            - FSState.default.metadata.free_ino_count ∧
      countSet FSState.default.blk_bitmap RESERVED_DATA_BLKS NUM_DATA_BLKS
        = (FSState.default.metadata.blk_count - RESERVED_DATA_BLKS)
            - FSState.default.metadata.free_blk_count) :=
  ⟨rfl, counter_bitmap_agreement [] FSState.default rfl⟩

/-- C9: `DirEntry::new` fails `NameEmpty` on an empty name, fails
`NameTooLong` when the name's byte length exceeds `MAX_FILENAME_LEN = 255`,
and otherwise succeeds — in particular at exactly 255 bytes — with
`name_str` on the constructed entry returning exactly the original name
(names are the UTF-8 byte sequences of Rust `&str` values, so they satisfy
`utf8_valid`). -/
theorem dir_entry_name_roundtrip (ino_id : Nat) (name : List Nat) :
    (name = [] → DirEntry.new ino_id name = .error .NameEmpty) ∧
    (MAX_FILENAME_LEN < name.length → DirEntry.new ino_id name = .error .NameTooLong) ∧
    (name ≠ [] → name.length ≤ MAX_FILENAME_LEN → utf8_valid name = true →
      ∃ e, DirEntry.new ino_id name = .ok e ∧ e.name_str = .ok name) := by
  refine ⟨fun h => ?_, fun h => ?_, fun h1 h2 h3 => ?_⟩
  · subst h; rfl
  · have hne : ¬ (name.isEmpty = true) := by
      cases name with
      | nil => simp at h
      | cons a t => simp
    unfold DirEntry.new
    rw [if_neg hne, if_pos h]
  · have hne : ¬ (name.isEmpty = true) := by
      cases name with
      | nil => exact absurd rfl h1
      | cons a t => simp
    refine ⟨⟨ino_id, name.length, name ++ List.replicate (MAX_FILENAME_LEN - name.length) 0⟩,
      ?_, ?_⟩
    · unfold DirEntry.new
      rw [if_neg hne, if_neg (by omega)]
    · simp only [DirEntry.name_str]
      rw [List.take_left' rfl, if_pos h3]

theorem dir_entry_name_roundtrip_witness :
    DirEntry.new 7 [] = .error .NameEmpty ∧
    (MAX_FILENAME_LEN < (List.replicate 256 97).length ∧
      DirEntry.new 7 (List.replicate 256 97) = .error .NameTooLong) ∧
    (List.replicate 255 97 ≠ ([] : List Nat) ∧
      (List.replicate 255 97).length ≤ MAX_FILENAME_LEN ∧
      utf8_valid (List.replicate 255 97) = true ∧
      ∃ e, DirEntry.new 7 (List.replicate 255 97) = .ok e ∧
        e.name_str = .ok (List.replicate 255 97)) :=
  ⟨(dir_entry_name_roundtrip 7 []).1 rfl,
   ⟨by decide, (dir_entry_name_roundtrip 7 (List.replicate 256 97)).2.1 (by decide)⟩,
   ⟨by decide, by decide, by decide,
    (dir_entry_name_roundtrip 7 (List.replicate 255 97)).2.2
      (by decide) (by decide) (by decide)⟩⟩

end RustyFS
